import Mathlib

/-
Verification of the alignment-and-transform engine of the
semi-automatic-georeferencing service (src/server/app.py).

The embedding models the numerical core over the real numbers:
`compute_similarity_transform` (app.py lines 107-130), `transform_point`
(lines 133-138), `transform_geom` (lines 141-160), the dataset projection
performed inside the `/transform` endpoint (lines 324-326), and the
endpoint's control flow with its trailing catch-all exception handler
(lines 302-352).  Machine floating point is modelled by exact real
arithmetic; a division whose denominator is zero (NaN in the program)
becomes Lean's junk value 0 and is flagged in comments wherever it matters.
-/

noncomputable section

/-- A 2-D point, the `(x, y)` coordinate pairs flowing through app.py. -/
abbrev Pt : Type := ℝ × ℝ

/-- A 2×2 real matrix `[[a, b], [c, d]]`, the shape of the numpy arrays
`M` and `R` in `compute_similarity_transform`. -/
@[ext]
structure Mat2 where
  a : ℝ
  b : ℝ
  c : ℝ
  d : ℝ

/-- The 2×2 identity matrix. -/
def Mat2.id : Mat2 := ⟨1, 0, 0, 1⟩

/-- Matrix transpose. -/
def Mat2.transpose (M : Mat2) : Mat2 := ⟨M.a, M.c, M.b, M.d⟩

/-- Matrix product. -/
def Mat2.mul (M N : Mat2) : Mat2 :=
  ⟨M.a * N.a + M.b * N.c, M.a * N.b + M.b * N.d,
   M.c * N.a + M.d * N.c, M.c * N.b + M.d * N.d⟩

/-- Determinant, `np.linalg.det` for a 2×2 matrix. -/
def Mat2.det (M : Mat2) : ℝ := M.a * M.d - M.b * M.c

/-- Sum of `f` over a list, modelling the numpy reductions
(`np.sum`, `.mean` numerators) used in `compute_similarity_transform`. -/
def sumBy {α : Type} (l : List α) (f : α → ℝ) : ℝ := (l.map f).sum

/-- Sum of a binary form over two index-aligned lists (numpy element-wise
product followed by `np.sum`, e.g. `np.sum(dst_c * A)` and the entries of
`src_c.T @ dst_c`). -/
def sumBy2 (s t : List Pt) (f : Pt → Pt → ℝ) : ℝ :=
  ((s.zip t).map fun pr => f pr.1 pr.2).sum

/-- `arr.mean(axis=0)`: componentwise mean of a list of points
(app.py lines 112-113). -/
def mean (l : List Pt) : Pt :=
  (sumBy l (fun p => p.1) / (l.length : ℝ), sumBy l (fun p => p.2) / (l.length : ℝ))

/-- Centering a point set by subtracting a mean (app.py lines 115-116:
`src - src_mean`, `dst - dst_mean`). -/
def center (l : List Pt) (m : Pt) : List Pt :=
  l.map fun p => (p.1 - m.1, p.2 - m.2)

/-- The 2×2 cross-covariance `M = src_c.T @ dst_c` (app.py line 118):
entry `(j,k)` is the sum over the point index of
`src_c[i][j] * dst_c[i][k]`. -/
def crossCov (s t : List Pt) : Mat2 :=
  ⟨sumBy2 s t (fun u v => u.1 * v.1), sumBy2 s t (fun u v => u.1 * v.2),
   sumBy2 s t (fun u v => u.2 * v.1), sumBy2 s t (fun u v => u.2 * v.2)⟩

/-- App.py lines 119-124: `U, _, Vt = np.linalg.svd(M); R = Vt.T @ U.T`,
followed by the reflection fix `if det(R) < 0: Vt[-1] *= -1; R = Vt.T @ U.T`.

For a 2×2 matrix this composite has a closed form: writing
`M = [[a, b], [c, d]]`, the corrected product `V·Uᵀ` is the rotation
maximising `tr(R·M)` over proper rotations, namely
`[[(a+d)/r, (c-b)/r], [(b-c)/r, (a+d)/r]]` with
`r = sqrt((a+d)^2 + (b-c)^2)`, whenever `r ≠ 0` (this covers `det M > 0`,
`det M < 0` with distinct singular values, and `det M = 0` with `M ≠ 0`).
When `r = 0` the maximiser is not unique and LAPACK's choice is
implementation-defined; for the only such input reachable in the analyses
below, `M = 0`, numpy's SVD returns `U = Vt = I`, so `R = I`, which is the
value used here. -/
def kabschRotation (M : Mat2) : Mat2 :=
  if M.a + M.d = 0 ∧ M.b - M.c = 0 then Mat2.id
  else
    ⟨(M.a + M.d) / Real.sqrt ((M.a + M.d) ^ 2 + (M.b - M.c) ^ 2),
     (M.c - M.b) / Real.sqrt ((M.a + M.d) ^ 2 + (M.b - M.c) ^ 2),
     (M.b - M.c) / Real.sqrt ((M.a + M.d) ^ 2 + (M.b - M.c) ^ 2),
     (M.a + M.d) / Real.sqrt ((M.a + M.d) ^ 2 + (M.b - M.c) ^ 2)⟩

/-- `compute_similarity_transform(src, dst)` (app.py lines 107-130).
Returns `(scale, R, t)` with
`scale = np.sum(dst_c * A) / np.sum(src_c * src_c)` where
`A = src_c @ R.T` (row `i` of `A` is `R · src_c[i]`), and
`t = dst_mean - scale * (R @ src_mean)`.
The function performs no degeneracy check: when all source points
coincide the denominator is 0; numpy then produces NaN, modelled here by
Lean's convention `x / 0 = 0`. -/
def compute_similarity_transform (src dst : List Pt) : ℝ × Mat2 × Pt :=
  let srcMean := mean src
  let dstMean := mean dst
  let srcC := center src srcMean
  let dstC := center dst dstMean
  let M := crossCov srcC dstC
  let R := kabschRotation M
  let scale :=
    sumBy2 dstC srcC (fun v u => v.1 * (R.a * u.1 + R.b * u.2) + v.2 * (R.c * u.1 + R.d * u.2)) /
      sumBy srcC (fun u => u.1 * u.1 + u.2 * u.2)
  let t : Pt := (dstMean.1 - scale * (R.a * srcMean.1 + R.b * srcMean.2),
                 dstMean.2 - scale * (R.c * srcMean.1 + R.d * srcMean.2))
  (scale, R, t)

/-- `transform_point(x, y, model)` (app.py lines 133-138):
`P = scale * (R @ p) + t`. -/
def transform_point (x y : ℝ) (model : ℝ × Mat2 × Pt) : Pt :=
  (model.1 * (model.2.1.a * x + model.2.1.b * y) + model.2.2.1,
   model.1 * (model.2.1.c * x + model.2.1.d * y) + model.2.2.2)

/-- The fitting-error taxonomy of the specification (section 7).
`insufficientPoints` corresponds to the only guard present in the code:
the HTTP 400 check `len(request.pairs) < 3` at app.py lines 309-310.
`degenerateSourceSpread` appears in the specification only; no code path
produces it. -/
inductive FittingError where
  | insufficientPoints : FittingError
  | degenerateSourceSpread : FittingError
deriving DecidableEq

/-- The solver as invoked by the `/transform` endpoint (app.py lines
309-320): reject fewer than 3 pairs (HTTP 400, `insufficientPoints`),
otherwise call `compute_similarity_transform` on the unzipped pair lists.
No other validation exists between the guard and the call. -/
def fit (pairs : List (Pt × Pt)) : Except FittingError (ℝ × Mat2 × Pt) :=
  if pairs.length < 3 then .error .insufficientPoints
  else .ok (compute_similarity_transform (pairs.map Prod.fst) (pairs.map Prod.snd))

/-- Three of the listed points do not lie on one line (nonzero cross
product of difference vectors). -/
def NonCollinear (ps : List Pt) : Prop :=
  ∃ p ∈ ps, ∃ q ∈ ps, ∃ r ∈ ps,
    (q.1 - p.1) * (r.2 - p.2) - (q.2 - p.2) * (r.1 - p.1) ≠ 0

/-- The proper rotation matrix of angle `θ`. -/
def rotOf (θ : ℝ) : Mat2 :=
  ⟨Real.cos θ, -Real.sin θ, Real.sin θ, Real.cos θ⟩

/-- Shapely geometry trees as dispatched on by `transform_geom`
(app.py lines 141-160).  `point`, `lineString`, `polygon` (exterior ring
plus interior-ring holes), `multiPolygon` and `multiLineString` are the
five `geom_type` values the code handles; `other` stands for any node
whose `geom_type` string is outside that set (e.g. `GeometryCollection`),
carrying its kind string and its untransformed coordinate payload. -/
inductive Geom where
  | point (p : Pt) : Geom
  | lineString (coords : List Pt) : Geom
  | polygon (exterior : List Pt) (interiors : List (List Pt)) : Geom
  | multiPolygon (geoms : List Geom) : Geom
  | multiLineString (geoms : List Geom) : Geom
  | other (kind : String) (coords : List Pt) : Geom

/-- The shapely `geom_type` string of a node. -/
def Geom.kindOf : Geom → String
  | .point _ => "Point"
  | .lineString _ => "LineString"
  | .polygon _ _ => "Polygon"
  | .multiPolygon _ => "MultiPolygon"
  | .multiLineString _ => "MultiLineString"
  | .other k _ => k

/-- The `geom_type` values `transform_geom` dispatches on
(app.py lines 143, 146, 151, 154, 157). -/
def handledKinds : List String :=
  ["Point", "Polygon", "MultiPolygon", "LineString", "MultiLineString"]

mutual

/-- `transform_geom(g, model)` (app.py lines 141-160): recursively map
every leaf coordinate through `transform_point`; rebuild `Polygon` from
the mapped exterior and the mapped interior rings in order; recurse into
the children of multi-geometries in order; return any other node
unchanged (the trailing `return g`).  The function is total: no branch
raises. -/
def transform_geom (g : Geom) (model : ℝ × Mat2 × Pt) : Geom :=
  match g with
  | .point p => .point (transform_point p.1 p.2 model)
  | .polygon ext holes =>
      .polygon (ext.map fun q => transform_point q.1 q.2 model)
        (holes.map fun ring => ring.map fun q => transform_point q.1 q.2 model)
  | .multiPolygon gs => .multiPolygon (transformGeomList gs model)
  | .lineString cs => .lineString (cs.map fun q => transform_point q.1 q.2 model)
  | .multiLineString gs => .multiLineString (transformGeomList gs model)
  | .other k cs => .other k cs

/-- The list comprehensions `[transform_geom(poly, model) for poly in
g.geoms]` of app.py lines 152 and 158. -/
def transformGeomList (gs : List Geom) (model : ℝ × Mat2 × Pt) : List Geom :=
  match gs with
  | [] => []
  | g :: rest => transform_geom g model :: transformGeomList rest model

end

/-- The coordinate-free skeleton of a geometry: constructor, ring order,
vertex counts and child order, with leaf coordinates erased (for `other`
nodes nothing is erased, since the code does not touch them at all). -/
inductive GeomShape where
  | point : GeomShape
  | lineString (n : ℕ) : GeomShape
  | polygon (extCount : ℕ) (holeCounts : List ℕ) : GeomShape
  | multiPolygon (children : List GeomShape) : GeomShape
  | multiLineString (children : List GeomShape) : GeomShape
  | other (kind : String) (coords : List Pt) : GeomShape

mutual

/-- Erase leaf coordinates, keeping all container structure. -/
def shape (g : Geom) : GeomShape :=
  match g with
  | .point _ => .point
  | .lineString cs => .lineString cs.length
  | .polygon ext holes => .polygon ext.length (holes.map List.length)
  | .multiPolygon gs => .multiPolygon (shapeList gs)
  | .multiLineString gs => .multiLineString (shapeList gs)
  | .other k cs => .other k cs

/-- `shape` mapped over the children of a multi-geometry. -/
def shapeList (gs : List Geom) : List GeomShape :=
  match gs with
  | [] => []
  | g :: rest => shape g :: shapeList rest

end

/-- A row of the GeoDataFrame: its attribute columns and its geometry. -/
structure FeatureRecord where
  attributes : List (String × String)
  geometry : Geom

/-- A GeoDataFrame: ordered records plus an optional EPSG reference-frame
tag (the CRS). -/
structure FeatureCollection where
  records : List FeatureRecord
  crs : Option ℕ

/-- The dataset projection performed inside the `/transform` endpoint
(app.py lines 324-326): `raw_trans = raw.copy()` keeps every attribute
column and the record order; `raw_trans["geometry"] =
raw.geometry.apply(lambda g: transform_geom(g, model))` replaces each
geometry; `raw_trans.set_crs(4326)` attaches the target frame (the
endpoint hardcodes `targetFrame = 4326`). -/
def project (coll : FeatureCollection) (model : ℝ × Mat2 × Pt)
    (targetFrame : ℕ) : FeatureCollection :=
  { records := coll.records.map fun r =>
      { attributes := r.attributes, geometry := transform_geom r.geometry model },
    crs := some targetFrame }

/-- A Python exception as observable from the `/transform` handler.
`fastapi.HTTPException` subclasses `Exception`, so it is caught by a bare
`except Exception`. -/
inductive PyExc where
  | httpException (statusCode : ℕ) (detail : String) : PyExc
deriving DecidableEq

/-- `str(e)` for a starlette/fastapi `HTTPException`:
`f"{self.status_code}: {self.detail}"`. -/
def pyStr : PyExc → String
  | .httpException code detail => toString code ++ ": " ++ detail

/-- The slice of a session relevant to `/transform`: its raw dataset. -/
structure SessionData where
  raw : FeatureCollection

/-- The body of the `try:` block of the `/transform` endpoint (app.py
lines 305-349): raise HTTP 404 when the session is missing, raise HTTP
400 when fewer than 3 pairs are supplied, otherwise fit the model on the
unzipped pair lists and project the raw dataset through it with CRS 4326.
File serialization and zipping (lines 329-349) are I/O plumbing outside
the engine and are not modelled. -/
def transform_body (sessions : List (String × SessionData)) (sid : String)
    (pairs : List (Pt × Pt)) : Except PyExc FeatureCollection :=
  match sessions.lookup sid with
  | none => .error (.httpException 404 "Session not found")
  | some sess =>
      if pairs.length < 3 then
        .error (.httpException 400 "At least 3 control point pairs required")
      else
        let m := compute_similarity_transform (pairs.map Prod.fst) (pairs.map Prod.snd)
        .ok (project sess.raw m 4326)

/-- The `/transform` handler `apply_transformation` (app.py lines
302-352): the whole body sits in a `try:` whose trailing
`except Exception as e: raise HTTPException(status_code=500,
detail=str(e))` catches every exception — including the handler's own
`HTTPException(404)` and `HTTPException(400)` — and re-raises it with
status 500 and `str(e)` as detail. -/
def apply_transformation (sessions : List (String × SessionData)) (sid : String)
    (pairs : List (Pt × Pt)) : Except PyExc FeatureCollection :=
  match transform_body sessions sid pairs with
  | .ok resp => .ok resp
  | .error e => .error (.httpException 500 (pyStr e))

/-! ### Summation toolbox -/

theorem sumBy_congr {α : Type} {l : List α} {f g : α → ℝ}
    (h : ∀ x ∈ l, f x = g x) : sumBy l f = sumBy l g := by
  unfold sumBy
  induction l with
  | nil => simp
  | cons x xs ih =>
      simp only [List.map_cons, List.sum_cons]
      rw [h x (by simp), ih (fun y hy => h y (by simp [hy]))]

theorem sumBy_add {α : Type} (l : List α) (f g : α → ℝ) :
    sumBy l (fun x => f x + g x) = sumBy l f + sumBy l g := by
  unfold sumBy
  induction l with
  | nil => simp
  | cons x xs ih => simp only [List.map_cons, List.sum_cons, ih]; ring

theorem sumBy_mul_left {α : Type} (l : List α) (k : ℝ) (f : α → ℝ) :
    sumBy l (fun x => k * f x) = k * sumBy l f := by
  unfold sumBy
  induction l with
  | nil => simp
  | cons x xs ih => simp only [List.map_cons, List.sum_cons, ih]; ring

theorem sumBy_const {α : Type} (l : List α) (k : ℝ) :
    sumBy l (fun _ => k) = (l.length : ℝ) * k := by
  unfold sumBy
  induction l with
  | nil => simp
  | cons x xs ih => simp only [List.map_cons, List.sum_cons, ih, List.length_cons]; push_cast; ring

theorem sumBy_zero {α : Type} (l : List α) : sumBy l (fun _ => (0 : ℝ)) = 0 := by
  simpa using sumBy_const l 0

theorem sumBy_nonneg {α : Type} {l : List α} {f : α → ℝ}
    (h : ∀ x ∈ l, 0 ≤ f x) : 0 ≤ sumBy l f := by
  unfold sumBy
  induction l with
  | nil => simp
  | cons x xs ih =>
      simp only [List.map_cons, List.sum_cons]
      have h1 := h x (by simp)
      have h2 := ih (fun y hy => h y (by simp [hy]))
      linarith

theorem sumBy_single_le {α : Type} {l : List α} {f : α → ℝ}
    (hpos : ∀ x ∈ l, 0 ≤ f x) {p : α} (hp : p ∈ l) : f p ≤ sumBy l f := by
  unfold sumBy
  induction l with
  | nil => cases hp
  | cons x xs ih =>
      simp only [List.map_cons, List.sum_cons]
      rcases List.mem_cons.mp hp with h | h
      · subst h
        have : 0 ≤ (xs.map f).sum := by
          have := sumBy_nonneg (l := xs) (f := f)
            (fun y hy => hpos y (by simp [hy]))
          simpa [sumBy] using this
        linarith
      · have h1 := hpos x (by simp)
        have h2 := ih (fun y hy => hpos y (by simp [hy])) h
        linarith

/-- A linear combination pushed through a sum. -/
theorem sumBy_lin {α : Type} (l : List α) (k₁ k₂ : ℝ) (f g : α → ℝ) :
    sumBy l (fun x => k₁ * f x + k₂ * g x) = k₁ * sumBy l f + k₂ * sumBy l g := by
  rw [sumBy_add l (fun x => k₁ * f x) (fun x => k₂ * g x),
    sumBy_mul_left, sumBy_mul_left]

/-- An aligned sum over two maps of one base list collapses to a plain
sum over that list. -/
theorem sumBy2_map_map {l : List Pt} (f g : Pt → Pt) (F : Pt → Pt → ℝ) :
    sumBy2 (l.map f) (l.map g) F = sumBy l (fun p => F (f p) (g p)) := by
  unfold sumBy2 sumBy
  rw [List.zip_map']
  rw [List.map_map]
  rfl

/-- A sum of a binary form vanishes when the form vanishes on every
aligned pair. -/
theorem sumBy2_eq_zero {s t : List Pt} {F : Pt → Pt → ℝ}
    (h : ∀ pr ∈ s.zip t, F pr.1 pr.2 = 0) : sumBy2 s t F = 0 := by
  unfold sumBy2
  apply List.sum_eq_zero
  intro x hx
  rcases List.mem_map.mp hx with ⟨pr, hpr, hval⟩
  rw [← hval, h pr hpr]

theorem sumBy_affine {α : Type} (l : List α) (k₁ k₂ k₀ : ℝ) (f g : α → ℝ) :
    sumBy l (fun x => k₁ * f x + k₂ * g x + k₀) =
      k₁ * sumBy l f + k₂ * sumBy l g + (l.length : ℝ) * k₀ := by
  rw [sumBy_add l (fun x => k₁ * f x + k₂ * g x) (fun _ => k₀), sumBy_lin, sumBy_const]

theorem sumBy_lin4 {α : Type} (l : List α) (k₁ k₂ k₃ k₄ : ℝ) (f₁ f₂ f₃ f₄ : α → ℝ) :
    sumBy l (fun x => k₁ * f₁ x + k₂ * f₂ x + k₃ * f₃ x + k₄ * f₄ x) =
      k₁ * sumBy l f₁ + k₂ * sumBy l f₂ + k₃ * sumBy l f₃ + k₄ * sumBy l f₄ := by
  rw [sumBy_add l (fun x => k₁ * f₁ x + k₂ * f₂ x + k₃ * f₃ x) (fun x => k₄ * f₄ x),
    sumBy_add l (fun x => k₁ * f₁ x + k₂ * f₂ x) (fun x => k₃ * f₃ x),
    sumBy_lin, sumBy_mul_left, sumBy_mul_left]

theorem sumBy2_eq_sumBy (s t : List Pt) (F : Pt → Pt → ℝ) :
    sumBy2 s t F = sumBy (s.zip t) (fun pr => F pr.1 pr.2) := rfl

theorem sumBy2_swap (s t : List Pt) (F : Pt → Pt → ℝ) :
    sumBy2 t s F = sumBy2 s t (fun u v => F v u) := by
  unfold sumBy2
  rw [← List.zip_swap s t, List.map_map]
  rfl

theorem sumBy_map {α β : Type} (l : List α) (f : α → β) (g : β → ℝ) :
    sumBy (l.map f) g = sumBy l (fun x => g (f x)) := by
  unfold sumBy
  rw [List.map_map]
  rfl

theorem center_eq_map (l : List Pt) (m : Pt) :
    center l m = l.map (fun p => (p.1 - m.1, p.2 - m.2)) := rfl

theorem crossCov_maps (l : List Pt) (f g : Pt → Pt) :
    crossCov (l.map f) (l.map g) =
      ⟨sumBy l (fun p => (f p).1 * (g p).1), sumBy l (fun p => (f p).1 * (g p).2),
       sumBy l (fun p => (f p).2 * (g p).1), sumBy l (fun p => (f p).2 * (g p).2)⟩ := by
  unfold crossCov
  rw [sumBy2_map_map, sumBy2_map_map, sumBy2_map_map, sumBy2_map_map]

theorem NonCollinear.exists_ne {ps : List Pt} (h : NonCollinear ps) :
    ∃ p ∈ ps, ∃ q ∈ ps, p ≠ q := by
  obtain ⟨p, hp, q, hq, r, hr, hcross⟩ := h
  refine ⟨p, hp, q, hq, fun hpq => hcross ?_⟩
  rw [← hpq]
  ring

/-- The denominator `np.sum(src_c * src_c)` is strictly positive as soon
as two source points differ. -/
theorem centered_spread_pos {ps : List Pt} {p q : Pt}
    (hp : p ∈ ps) (hq : q ∈ ps) (hne : p ≠ q) :
    0 < sumBy (center ps (mean ps)) (fun u => u.1 * u.1 + u.2 * u.2) := by
  rw [center_eq_map, sumBy_map]
  set μ := mean ps with hμ
  have hnn : ∀ x ∈ ps, 0 ≤ (x.1 - μ.1) * (x.1 - μ.1) + (x.2 - μ.2) * (x.2 - μ.2) := by
    intro x _
    nlinarith [sq_nonneg (x.1 - μ.1), sq_nonneg (x.2 - μ.2)]
  have key : ∀ x ∈ ps, x ≠ μ →
      0 < sumBy ps (fun p => (p.1 - μ.1) * (p.1 - μ.1) + (p.2 - μ.2) * (p.2 - μ.2)) := by
    intro x hx hxμ
    have hterm : 0 < (x.1 - μ.1) * (x.1 - μ.1) + (x.2 - μ.2) * (x.2 - μ.2) := by
      rcases Prod.ext_iff.not.mp hxμ with hcoord
      push_neg at hcoord
      by_cases h1 : x.1 = μ.1
      · have h2 := hcoord h1
        have : x.2 - μ.2 ≠ 0 := sub_ne_zero_of_ne h2
        nlinarith [sq_nonneg (x.1 - μ.1), mul_self_pos.mpr this]
      · have : x.1 - μ.1 ≠ 0 := sub_ne_zero_of_ne h1
        nlinarith [sq_nonneg (x.2 - μ.2), mul_self_pos.mpr this]
    calc (0:ℝ) < (x.1 - μ.1) * (x.1 - μ.1) + (x.2 - μ.2) * (x.2 - μ.2) := hterm
    _ ≤ _ := sumBy_single_le hnn hx
  by_cases hpμ : p = μ
  · exact key q hq (fun hqμ => hne (by rw [hpμ, hqμ]))
  · exact key p hp hpμ

/-- The scale numerator `np.sum(dst_c * (src_c @ R.T))` is the trace form
`tr(R · M)` of the cross-covariance `M`. -/
theorem scale_num_eq_trace (sC dC : List Pt) (R : Mat2) :
    sumBy2 dC sC (fun v u => v.1 * (R.a * u.1 + R.b * u.2) + v.2 * (R.c * u.1 + R.d * u.2)) =
      R.a * (crossCov sC dC).a + R.b * (crossCov sC dC).c +
        R.c * (crossCov sC dC).b + R.d * (crossCov sC dC).d := by
  rw [sumBy2_swap]
  unfold crossCov
  rw [sumBy2_eq_sumBy, sumBy2_eq_sumBy, sumBy2_eq_sumBy, sumBy2_eq_sumBy, sumBy2_eq_sumBy]
  rw [sumBy_congr (g := fun pr : Pt × Pt =>
    R.a * (pr.1.1 * pr.2.1) + R.b * (pr.1.2 * pr.2.1) +
      R.c * (pr.1.1 * pr.2.2) + R.d * (pr.1.2 * pr.2.2)) (fun pr _ => by ring)]
  rw [sumBy_lin4]

/-- Closed-form output of the SVD/reflection-correction block: whenever
`(M.a + M.d, M.b - M.c)` is a positive multiple `k` of a unit vector
`(c, d)`, the corrected rotation is exactly `[[c, -d], [d, c]]`. -/
theorem kabschRotation_rot {k c d : ℝ} (hk : 0 < k) (hcd : c ^ 2 + d ^ 2 = 1)
    {M : Mat2} (ha : M.a + M.d = k * c) (hb : M.b - M.c = k * d) :
    kabschRotation M = ⟨c, -d, d, c⟩ := by
  have hkne : k ≠ 0 := ne_of_gt hk
  by_cases hzero : M.a + M.d = 0 ∧ M.b - M.c = 0
  · exfalso
    have hc : c = 0 := by
      have := hzero.1
      rw [ha] at this
      exact (mul_eq_zero.mp this).resolve_left hkne
    have hd : d = 0 := by
      have := hzero.2
      rw [hb] at this
      exact (mul_eq_zero.mp this).resolve_left hkne
    rw [hc, hd] at hcd
    norm_num at hcd
  · rw [kabschRotation, if_neg hzero]
    have hq : (M.a + M.d) ^ 2 + (M.b - M.c) ^ 2 = k ^ 2 := by
      rw [ha, hb]
      have : (k * c) ^ 2 + (k * d) ^ 2 = k ^ 2 * (c ^ 2 + d ^ 2) := by ring
      rw [this, hcd, mul_one]
    have hr : Real.sqrt ((M.a + M.d) ^ 2 + (M.b - M.c) ^ 2) = k := by
      rw [hq]
      exact Real.sqrt_sq hk.le
    have hcb : M.c - M.b = k * -d := by
      have : M.c - M.b = -(M.b - M.c) := by ring
      rw [this, hb]
      ring
    ext
    · rw [hr, ha, mul_comm k c, mul_div_assoc, div_self hkne, mul_one]
    · rw [hr, hcb, mul_comm k (-d), mul_div_assoc, div_self hkne, mul_one]
    · rw [hr, hb, mul_comm k d, mul_div_assoc, div_self hkne, mul_one]
    · rw [hr, ha, mul_comm k c, mul_div_assoc, div_self hkne, mul_one]

/-- Projection of `compute_similarity_transform` onto its rotation. -/
theorem cst_R (src dst : List Pt) :
    (compute_similarity_transform src dst).2.1 =
      kabschRotation (crossCov (center src (mean src)) (center dst (mean dst))) := rfl

/-- Projection of `compute_similarity_transform` onto its scale. -/
theorem cst_scale (src dst : List Pt) :
    (compute_similarity_transform src dst).1 =
      sumBy2 (center dst (mean dst)) (center src (mean src))
          (fun v u =>
            v.1 * ((compute_similarity_transform src dst).2.1.a * u.1 +
                (compute_similarity_transform src dst).2.1.b * u.2) +
              v.2 * ((compute_similarity_transform src dst).2.1.c * u.1 +
                (compute_similarity_transform src dst).2.1.d * u.2)) /
        sumBy (center src (mean src)) (fun u => u.1 * u.1 + u.2 * u.2) := rfl

/-- Projection of `compute_similarity_transform` onto its translation. -/
theorem cst_t (src dst : List Pt) :
    (compute_similarity_transform src dst).2.2 =
      ((mean dst).1 - (compute_similarity_transform src dst).1 *
          ((compute_similarity_transform src dst).2.1.a * (mean src).1 +
            (compute_similarity_transform src dst).2.1.b * (mean src).2),
       (mean dst).2 - (compute_similarity_transform src dst).1 *
          ((compute_similarity_transform src dst).2.1.c * (mean src).1 +
            (compute_similarity_transform src dst).2.1.d * (mean src).2)) := rfl

/-- Exact recovery core: on a point set with positive centered spread,
fitting against its exact similarity image under scale `s > 0`, rotation
`[[c, -d], [d, c]]` (with `c² + d² = 1`) and translation `(tx, ty)`
returns exactly those parameters. -/
theorem similarity_fit_exact (ps : List Pt) (s c d tx ty : ℝ)
    (hs : 0 < s) (hcd : c ^ 2 + d ^ 2 = 1) (hn : ps.length ≠ 0)
    (hT : 0 < sumBy (center ps (mean ps)) (fun u => u.1 * u.1 + u.2 * u.2)) :
    compute_similarity_transform ps
        (ps.map fun p => (s * (c * p.1 + -d * p.2) + tx, s * (d * p.1 + c * p.2) + ty)) =
      (s, ⟨c, -d, d, c⟩, (tx, ty)) := by
  have hnR : ((ps.length : ℝ)) ≠ 0 := Nat.cast_ne_zero.mpr hn
  have h1 : sumBy ps (fun p => s * (c * p.1 + -d * p.2) + tx) =
      (s * c) * sumBy ps (fun p => p.1) + (s * -d) * sumBy ps (fun p => p.2) +
        (ps.length : ℝ) * tx := by
    rw [sumBy_congr (g := fun p : Pt => (s * c) * p.1 + (s * -d) * p.2 + tx)
      (fun p _ => by ring)]
    exact sumBy_affine ps (s * c) (s * -d) tx _ _
  have h2 : sumBy ps (fun p => s * (d * p.1 + c * p.2) + ty) =
      (s * d) * sumBy ps (fun p => p.1) + (s * c) * sumBy ps (fun p => p.2) +
        (ps.length : ℝ) * ty := by
    rw [sumBy_congr (g := fun p : Pt => (s * d) * p.1 + (s * c) * p.2 + ty)
      (fun p _ => by ring)]
    exact sumBy_affine ps (s * d) (s * c) ty _ _
  have hmeand : mean (ps.map fun p =>
        (s * (c * p.1 + -d * p.2) + tx, s * (d * p.1 + c * p.2) + ty)) =
      (s * (c * (mean ps).1 + -d * (mean ps).2) + tx,
       s * (d * (mean ps).1 + c * (mean ps).2) + ty) := by
    simp only [mean, List.length_map, sumBy_map]
    rw [h1, h2]
    rw [Prod.mk.injEq]
    constructor
    · field_simp
      ring
    · field_simp
      ring
  have hMall : crossCov (center ps (mean ps))
      (center (ps.map fun p => (s * (c * p.1 + -d * p.2) + tx, s * (d * p.1 + c * p.2) + ty))
        (mean (ps.map fun p =>
          (s * (c * p.1 + -d * p.2) + tx, s * (d * p.1 + c * p.2) + ty)))) =
      ⟨(s * c) * sumBy ps (fun p => (p.1 - (mean ps).1) * (p.1 - (mean ps).1)) +
          (s * -d) * sumBy ps (fun p => (p.1 - (mean ps).1) * (p.2 - (mean ps).2)),
       (s * d) * sumBy ps (fun p => (p.1 - (mean ps).1) * (p.1 - (mean ps).1)) +
          (s * c) * sumBy ps (fun p => (p.1 - (mean ps).1) * (p.2 - (mean ps).2)),
       (s * c) * sumBy ps (fun p => (p.1 - (mean ps).1) * (p.2 - (mean ps).2)) +
          (s * -d) * sumBy ps (fun p => (p.2 - (mean ps).2) * (p.2 - (mean ps).2)),
       (s * d) * sumBy ps (fun p => (p.1 - (mean ps).1) * (p.2 - (mean ps).2)) +
          (s * c) * sumBy ps (fun p => (p.2 - (mean ps).2) * (p.2 - (mean ps).2))⟩ := by
    rw [hmeand, center_eq_map, center_eq_map, List.map_map, crossCov_maps]
    dsimp only [Function.comp]
    rw [Mat2.mk.injEq]
    refine ⟨?_, ?_, ?_, ?_⟩
    · rw [sumBy_congr (g := fun p : Pt =>
        (s * c) * ((p.1 - (mean ps).1) * (p.1 - (mean ps).1)) +
          (s * -d) * ((p.1 - (mean ps).1) * (p.2 - (mean ps).2))) (fun p _ => by ring)]
      exact sumBy_lin ps (s * c) (s * -d) _ _
    · rw [sumBy_congr (g := fun p : Pt =>
        (s * d) * ((p.1 - (mean ps).1) * (p.1 - (mean ps).1)) +
          (s * c) * ((p.1 - (mean ps).1) * (p.2 - (mean ps).2))) (fun p _ => by ring)]
      exact sumBy_lin ps (s * d) (s * c) _ _
    · rw [sumBy_congr (g := fun p : Pt =>
        (s * c) * ((p.1 - (mean ps).1) * (p.2 - (mean ps).2)) +
          (s * -d) * ((p.2 - (mean ps).2) * (p.2 - (mean ps).2))) (fun p _ => by ring)]
      exact sumBy_lin ps (s * c) (s * -d) _ _
    · rw [sumBy_congr (g := fun p : Pt =>
        (s * d) * ((p.1 - (mean ps).1) * (p.2 - (mean ps).2)) +
          (s * c) * ((p.2 - (mean ps).2) * (p.2 - (mean ps).2))) (fun p _ => by ring)]
      exact sumBy_lin ps (s * d) (s * c) _ _
  have hTsum : sumBy (center ps (mean ps)) (fun u => u.1 * u.1 + u.2 * u.2) =
      sumBy ps (fun p => (p.1 - (mean ps).1) * (p.1 - (mean ps).1)) +
        sumBy ps (fun p => (p.2 - (mean ps).2) * (p.2 - (mean ps).2)) := by
    rw [center_eq_map, sumBy_map]
    dsimp only
    exact sumBy_add ps _ _
  have hTQ : 0 < sumBy ps (fun p => (p.1 - (mean ps).1) * (p.1 - (mean ps).1)) +
      sumBy ps (fun p => (p.2 - (mean ps).2) * (p.2 - (mean ps).2)) := hTsum ▸ hT
  have hR : (compute_similarity_transform ps
      (ps.map fun p => (s * (c * p.1 + -d * p.2) + tx, s * (d * p.1 + c * p.2) + ty))).2.1 =
      ⟨c, -d, d, c⟩ := by
    rw [cst_R, hMall]
    exact kabschRotation_rot (mul_pos hs hTQ) hcd (by dsimp only; ring) (by dsimp only; ring)
  have hscale : (compute_similarity_transform ps
      (ps.map fun p => (s * (c * p.1 + -d * p.2) + tx, s * (d * p.1 + c * p.2) + ty))).1 = s := by
    rw [cst_scale, hR, scale_num_eq_trace, hMall, hTsum]
    rw [div_eq_iff (ne_of_gt hTQ)]
    dsimp only
    linear_combination (s * (sumBy ps (fun p => (p.1 - (mean ps).1) * (p.1 - (mean ps).1)) +
      sumBy ps (fun p => (p.2 - (mean ps).2) * (p.2 - (mean ps).2)))) * hcd
  have ht : (compute_similarity_transform ps
      (ps.map fun p => (s * (c * p.1 + -d * p.2) + tx, s * (d * p.1 + c * p.2) + ty))).2.2 =
      (tx, ty) := by
    rw [cst_t, hscale, hR, hmeand]
    dsimp only
    rw [Prod.mk.injEq]
    constructor
    · ring
    · ring
  exact Prod.ext_iff.mpr ⟨hscale, Prod.ext_iff.mpr ⟨hR, ht⟩⟩

/-! ### Structural toolbox for geometries -/

theorem transformGeomList_eq_map (gs : List Geom) (model : ℝ × Mat2 × Pt) :
    transformGeomList gs model = gs.map (fun g => transform_geom g model) := by
  induction gs with
  | nil => rfl
  | cons g rest ih => rw [transformGeomList, ih, List.map_cons]

mutual

/-- `transform_geom` moves only leaf coordinates: the coordinate-free
skeleton of its output equals that of its input. -/
theorem shape_transform (g : Geom) (model : ℝ × Mat2 × Pt) :
    shape (transform_geom g model) = shape g :=
  match g with
  | .point _ => rfl
  | .lineString cs => by simp [transform_geom, shape]
  | .polygon ext holes => by simp [transform_geom, shape, List.map_map, Function.comp]
  | .multiPolygon gs => by
      rw [transform_geom, shape, shape, shapeList_transform gs model]
  | .multiLineString gs => by
      rw [transform_geom, shape, shape, shapeList_transform gs model]
  | .other k cs => rfl

theorem shapeList_transform (gs : List Geom) (model : ℝ × Mat2 × Pt) :
    shapeList (transformGeomList gs model) = shapeList gs :=
  match gs with
  | [] => rfl
  | g :: rest => by
      rw [transformGeomList, shapeList, shapeList,
        shape_transform g model, shapeList_transform rest model]

end

/-! ### Claim theorems -/

/-- C1 (confirmed).  Round-trip exact recovery: for every scale `s > 0`,
rotation angle `θ`, translation `(tx, ty)`, and every list of at least 3
non-collinear source points, producing targets by applying the model
`(s, rotOf θ, (tx, ty))` to the source points (via `transform_point`) and
fitting the solver on the resulting pairs returns exactly that scale,
rotation matrix (which absorbs `θ` mod 2π) and translation.  In the
real-arithmetic model "within floating tolerance" is exact equality. -/
theorem exact_recovery_roundtrip (s θ tx ty : ℝ) (ps : List Pt)
    (hs : 0 < s) (hlen : 3 ≤ ps.length) (hnc : NonCollinear ps) :
    fit (ps.map fun p => (p, transform_point p.1 p.2 (s, rotOf θ, (tx, ty)))) =
      .ok (s, rotOf θ, (tx, ty)) := by
  have hmaplen :
      (ps.map fun p => (p, transform_point p.1 p.2 (s, rotOf θ, (tx, ty)))).length =
        ps.length := List.length_map _ _
  rw [fit, if_neg (by rw [hmaplen]; omega)]
  have hfst : (ps.map fun p => (p, transform_point p.1 p.2 (s, rotOf θ, (tx, ty)))).map
      Prod.fst = ps := by
    rw [List.map_map]
    rw [show (Prod.fst ∘ fun p : Pt =>
      (p, transform_point p.1 p.2 (s, rotOf θ, (tx, ty)))) = id from rfl]
    exact List.map_id ps
  have hsnd : (ps.map fun p => (p, transform_point p.1 p.2 (s, rotOf θ, (tx, ty)))).map
      Prod.snd = ps.map (fun p =>
        (s * (Real.cos θ * p.1 + -Real.sin θ * p.2) + tx,
         s * (Real.sin θ * p.1 + Real.cos θ * p.2) + ty)) := by
    rw [List.map_map]
    rfl
  rw [hfst, hsnd]
  obtain ⟨p, hp, q, hq, hpq⟩ := hnc.exists_ne
  have hT := centered_spread_pos hp hq hpq
  have hn : ps.length ≠ 0 := by omega
  rw [similarity_fit_exact ps s (Real.cos θ) (Real.sin θ) tx ty hs
    (Real.cos_sq_add_sin_sq θ) hn hT]
  rfl

/-- Witness for C1 at `s = 2`, `θ = 0`, `t = (3, 4)`,
source points `[(0,0), (1,0), (0,1)]`. -/
theorem exact_recovery_roundtrip_witness :
    fit (([((0:ℝ), (0:ℝ)), (1, 0), (0, 1)] : List Pt).map fun p =>
        (p, transform_point p.1 p.2 (2, rotOf 0, (3, 4)))) =
      .ok (2, rotOf 0, (3, 4)) := by
  apply exact_recovery_roundtrip
  · norm_num
  · simp
  · exact ⟨(0, 0), by simp, (1, 0), by simp, (0, 1), by simp, by norm_num⟩

/-- C2 counterexample.  The claim says fitting 3 pairs with identical
source points returns `FittingError.degenerateSourceSpread`; the code has
no such check and returns a model. -/
theorem degenerate_source_counterexample :
    fit ([(((5:ℝ), (5:ℝ)), ((0:ℝ), (0:ℝ))), (((5:ℝ), (5:ℝ)), ((2:ℝ), (0:ℝ))),
        (((5:ℝ), (5:ℝ)), ((4:ℝ), (6:ℝ)))] : List (Pt × Pt)) ≠
      Except.error FittingError.degenerateSourceSpread := by
  rw [fit, if_neg (by simp)]
  exact fun h => Except.noConfusion h

/-- Helper: with at least 3 pairs whose source points all coincide, the
solver divides by a zero denominator and returns a junk model
(scale `0/0`, identity rotation from the zero cross-covariance, the
target centroid as translation). -/
theorem coincident_source_fit (pairs : List (Pt × Pt)) (w : Pt)
    (hlen : 3 ≤ pairs.length) (hall : ∀ pr ∈ pairs, pr.1 = w) :
    fit pairs = .ok (0, Mat2.id, mean (pairs.map Prod.snd)) := by
  rw [fit, if_neg (by omega)]
  have hsrc : ∀ x ∈ pairs.map Prod.fst, x = w := by
    intro x hx
    rcases List.mem_map.mp hx with ⟨pr, hpr, hval⟩
    rw [← hval]
    exact hall pr hpr
  have hnR : (((pairs.map Prod.fst).length : ℕ) : ℝ) ≠ 0 := by
    rw [List.length_map]
    exact_mod_cast (by omega : pairs.length ≠ 0)
  have hmean : mean (pairs.map Prod.fst) = w := by
    unfold mean
    rw [sumBy_congr (f := fun p : Pt => p.1) (g := fun _ : Pt => w.1)
        (fun x hx => by rw [hsrc x hx]),
      sumBy_congr (f := fun p : Pt => p.2) (g := fun _ : Pt => w.2)
        (fun x hx => by rw [hsrc x hx]),
      sumBy_const, sumBy_const]
    rw [Prod.mk.injEq]
    exact ⟨mul_div_cancel_left₀ _ hnR, mul_div_cancel_left₀ _ hnR⟩
  have hcen : ∀ u ∈ center (pairs.map Prod.fst) (mean (pairs.map Prod.fst)),
      u = (((0:ℝ), (0:ℝ)) : Pt) := by
    intro u hu
    rcases List.mem_map.mp hu with ⟨p, hp, hval⟩
    rw [← hval, hsrc p hp, hmean]
    simp
  have hMzero : crossCov (center (pairs.map Prod.fst) (mean (pairs.map Prod.fst)))
      (center (pairs.map Prod.snd) (mean (pairs.map Prod.snd))) = ⟨0, 0, 0, 0⟩ := by
    unfold crossCov
    rw [Mat2.mk.injEq]
    refine ⟨?_, ?_, ?_, ?_⟩ <;>
      · apply sumBy2_eq_zero
        intro pr hpr
        rw [hcen pr.1 (List.of_mem_zip hpr).1]
        norm_num
  have hden : sumBy (center (pairs.map Prod.fst) (mean (pairs.map Prod.fst)))
      (fun u => u.1 * u.1 + u.2 * u.2) = 0 := by
    rw [sumBy_congr (g := fun _ : Pt => (0:ℝ))
      (fun u hu => by rw [hcen u hu]; norm_num)]
    exact sumBy_zero _
  have hR : (compute_similarity_transform (pairs.map Prod.fst) (pairs.map Prod.snd)).2.1 =
      Mat2.id := by
    rw [cst_R, hMzero, kabschRotation, if_pos ⟨by norm_num, by norm_num⟩]
  have hscale : (compute_similarity_transform (pairs.map Prod.fst) (pairs.map Prod.snd)).1 =
      0 := by
    rw [cst_scale, hden, div_zero]
  have ht : (compute_similarity_transform (pairs.map Prod.fst) (pairs.map Prod.snd)).2.2 =
      mean (pairs.map Prod.snd) := by
    rw [cst_t, hscale]
    refine Prod.ext_iff.mpr ⟨?_, ?_⟩ <;> · dsimp only; ring
  exact congrArg Except.ok (Prod.ext_iff.mpr ⟨hscale, Prod.ext_iff.mpr ⟨hR, ht⟩⟩)

/-- C2 (corrected).  With at least 3 pairs whose source points all
coincide, `compute_similarity_transform` is still called and returns a
model rather than the error `degenerateSourceSpread`: the scale
denominator `np.sum(src_c * src_c)` is 0, the division yields NaN in the
program (junk value 0 in this real-number model), the zero
cross-covariance takes the `R = I` branch of the SVD block, and the
translation degenerates to the target centroid. -/
theorem degenerate_source_fit (pairs : List (Pt × Pt)) (w : Pt)
    (hlen : 3 ≤ pairs.length) (hall : ∀ pr ∈ pairs, pr.1 = w) :
    fit pairs = .ok (0, Mat2.id, mean (pairs.map Prod.snd)) :=
  coincident_source_fit pairs w hlen hall

/-- Witness for C2's corrected statement: three pairs with source `(5,5)`
and targets `(0,0), (2,0), (4,6)` produce `.ok` with scale 0 and the
target centroid `(2,2)` as translation. -/
theorem degenerate_source_fit_witness :
    fit ([(((5:ℝ), (5:ℝ)), ((0:ℝ), (0:ℝ))), (((5:ℝ), (5:ℝ)), ((2:ℝ), (0:ℝ))),
        (((5:ℝ), (5:ℝ)), ((4:ℝ), (6:ℝ)))] : List (Pt × Pt)) =
      .ok (0, Mat2.id, ((2:ℝ), (2:ℝ))) := by
  have h := degenerate_source_fit
    ([(((5:ℝ), (5:ℝ)), ((0:ℝ), (0:ℝ))), (((5:ℝ), (5:ℝ)), ((2:ℝ), (0:ℝ))),
      (((5:ℝ), (5:ℝ)), ((4:ℝ), (6:ℝ)))] : List (Pt × Pt)) ((5:ℝ), (5:ℝ))
    (by simp)
    (by
      intro pr hpr
      simp only [List.mem_cons, List.not_mem_nil, or_false] at hpr
      rcases hpr with h | h | h <;> rw [h])
  rw [h]
  norm_num [mean, sumBy]

/-- C3 (confirmed).  Fewer than 3 control point pairs are rejected as
`insufficientPoints` (the HTTP 400 guard at app.py lines 309-310); with
exactly 3 non-collinear pairs the fit proceeds and returns a model. -/
theorem insufficient_points_guard (pairs : List (Pt × Pt)) :
    (pairs.length < 3 → fit pairs = .error .insufficientPoints) ∧
    (pairs.length = 3 → NonCollinear (pairs.map Prod.fst) →
      ∃ m, fit pairs = .ok m) := by
  constructor
  · intro h
    rw [fit, if_pos h]
  · intro h _
    rw [fit, if_neg (by omega)]
    exact ⟨_, rfl⟩

/-- Witness for C3: 2 pairs are rejected, 3 non-collinear pairs fit. -/
theorem insufficient_points_guard_witness :
    fit ([(((0:ℝ), (0:ℝ)), ((1:ℝ), (1:ℝ))), (((1:ℝ), (0:ℝ)), ((2:ℝ), (1:ℝ)))] :
        List (Pt × Pt)) = .error .insufficientPoints ∧
    ∃ m, fit ([(((0:ℝ), (0:ℝ)), ((1:ℝ), (1:ℝ))), (((1:ℝ), (0:ℝ)), ((2:ℝ), (1:ℝ))),
        (((0:ℝ), (1:ℝ)), ((1:ℝ), (2:ℝ)))] : List (Pt × Pt)) = .ok m := by
  constructor
  · exact (insufficient_points_guard _).1 (by simp)
  · refine (insufficient_points_guard _).2 (by simp) ?_
    refine ⟨(0, 0), ?_, (1, 0), ?_, (0, 1), ?_, by norm_num⟩ <;> simp

/-- Helper: with at least 3 pairs whose target points all coincide, the
cross-covariance is zero, the rotation falls back to the identity, the
scale numerator vanishes and the fit returns scale 0 with the common
target as translation. -/
theorem coincident_target_fit (pairs : List (Pt × Pt)) (w : Pt)
    (hlen : 3 ≤ pairs.length) (hall : ∀ pr ∈ pairs, pr.2 = w) :
    fit pairs = .ok (0, Mat2.id, w) := by
  rw [fit, if_neg (by omega)]
  have hdst : ∀ x ∈ pairs.map Prod.snd, x = w := by
    intro x hx
    rcases List.mem_map.mp hx with ⟨pr, hpr, hval⟩
    rw [← hval]
    exact hall pr hpr
  have hnR : (((pairs.map Prod.snd).length : ℕ) : ℝ) ≠ 0 := by
    rw [List.length_map]
    exact_mod_cast (by omega : pairs.length ≠ 0)
  have hmean : mean (pairs.map Prod.snd) = w := by
    unfold mean
    rw [sumBy_congr (f := fun p : Pt => p.1) (g := fun _ : Pt => w.1)
        (fun x hx => by rw [hdst x hx]),
      sumBy_congr (f := fun p : Pt => p.2) (g := fun _ : Pt => w.2)
        (fun x hx => by rw [hdst x hx]),
      sumBy_const, sumBy_const]
    rw [Prod.mk.injEq]
    exact ⟨mul_div_cancel_left₀ _ hnR, mul_div_cancel_left₀ _ hnR⟩
  have hcen : ∀ v ∈ center (pairs.map Prod.snd) (mean (pairs.map Prod.snd)),
      v = (((0:ℝ), (0:ℝ)) : Pt) := by
    intro v hv
    rcases List.mem_map.mp hv with ⟨p, hp, hval⟩
    rw [← hval, hdst p hp, hmean]
    simp
  have hMzero : crossCov (center (pairs.map Prod.fst) (mean (pairs.map Prod.fst)))
      (center (pairs.map Prod.snd) (mean (pairs.map Prod.snd))) = ⟨0, 0, 0, 0⟩ := by
    unfold crossCov
    rw [Mat2.mk.injEq]
    refine ⟨?_, ?_, ?_, ?_⟩ <;>
      · apply sumBy2_eq_zero
        intro pr hpr
        rw [hcen pr.2 (List.of_mem_zip hpr).2]
        norm_num
  have hR : (compute_similarity_transform (pairs.map Prod.fst) (pairs.map Prod.snd)).2.1 =
      Mat2.id := by
    rw [cst_R, hMzero, kabschRotation, if_pos ⟨by norm_num, by norm_num⟩]
  have hnum : sumBy2 (center (pairs.map Prod.snd) (mean (pairs.map Prod.snd)))
      (center (pairs.map Prod.fst) (mean (pairs.map Prod.fst)))
      (fun v u => v.1 * (Mat2.id.a * u.1 + Mat2.id.b * u.2) +
        v.2 * (Mat2.id.c * u.1 + Mat2.id.d * u.2)) = 0 := by
    apply sumBy2_eq_zero
    intro pr hpr
    rw [hcen pr.1 (List.of_mem_zip hpr).1]
    norm_num
  have hscale : (compute_similarity_transform (pairs.map Prod.fst) (pairs.map Prod.snd)).1 =
      0 := by
    rw [cst_scale, hR, hnum, zero_div]
  have ht : (compute_similarity_transform (pairs.map Prod.fst) (pairs.map Prod.snd)).2.2 =
      w := by
    rw [cst_t, hscale, hmean]
    refine Prod.ext_iff.mpr ⟨?_, ?_⟩ <;> · dsimp only; ring
  exact congrArg Except.ok (Prod.ext_iff.mpr ⟨hscale, Prod.ext_iff.mpr ⟨hR, ht⟩⟩)

/-- Helper: the SVD/reflection-correction block always returns a proper
orthonormal matrix (`RᵀR = I`, `det R = 1`). -/
theorem kabschRotation_orthonormal (M : Mat2) :
    Mat2.mul (Mat2.transpose (kabschRotation M)) (kabschRotation M) = Mat2.id ∧
      Mat2.det (kabschRotation M) = 1 := by
  by_cases hzero : M.a + M.d = 0 ∧ M.b - M.c = 0
  · rw [kabschRotation, if_pos hzero]
    constructor
    · ext <;> norm_num [Mat2.mul, Mat2.transpose, Mat2.id]
    · norm_num [Mat2.det, Mat2.id]
  · rw [kabschRotation, if_neg hzero]
    have hq : 0 < (M.a + M.d) ^ 2 + (M.b - M.c) ^ 2 := by
      rcases not_and_or.mp hzero with h | h
      · nlinarith [sq_nonneg (M.b - M.c), sq_pos_of_ne_zero h]
      · nlinarith [sq_nonneg (M.a + M.d), sq_pos_of_ne_zero h]
    have hr : 0 < Real.sqrt ((M.a + M.d) ^ 2 + (M.b - M.c) ^ 2) :=
      Real.sqrt_pos.mpr hq
    have hr2 : Real.sqrt ((M.a + M.d) ^ 2 + (M.b - M.c) ^ 2) ^ 2 =
        (M.a + M.d) ^ 2 + (M.b - M.c) ^ 2 := Real.sq_sqrt hq.le
    have hdiag : ((M.a + M.d) / Real.sqrt ((M.a + M.d) ^ 2 + (M.b - M.c) ^ 2)) *
          ((M.a + M.d) / Real.sqrt ((M.a + M.d) ^ 2 + (M.b - M.c) ^ 2)) +
        ((M.b - M.c) / Real.sqrt ((M.a + M.d) ^ 2 + (M.b - M.c) ^ 2)) *
          ((M.b - M.c) / Real.sqrt ((M.a + M.d) ^ 2 + (M.b - M.c) ^ 2)) = 1 := by
      rw [show ((M.a + M.d) / Real.sqrt ((M.a + M.d) ^ 2 + (M.b - M.c) ^ 2)) *
            ((M.a + M.d) / Real.sqrt ((M.a + M.d) ^ 2 + (M.b - M.c) ^ 2)) +
          ((M.b - M.c) / Real.sqrt ((M.a + M.d) ^ 2 + (M.b - M.c) ^ 2)) *
            ((M.b - M.c) / Real.sqrt ((M.a + M.d) ^ 2 + (M.b - M.c) ^ 2)) =
          ((M.a + M.d) ^ 2 + (M.b - M.c) ^ 2) /
            Real.sqrt ((M.a + M.d) ^ 2 + (M.b - M.c) ^ 2) ^ 2 from by ring]
      rw [hr2]
      exact div_self (ne_of_gt hq)
    constructor
    · ext
      · exact hdiag
      · dsimp only [Mat2.mul, Mat2.transpose, Mat2.id]
        ring
      · dsimp only [Mat2.mul, Mat2.transpose, Mat2.id]
        ring
      · dsimp only [Mat2.mul, Mat2.transpose, Mat2.id]
        calc (M.c - M.b) / Real.sqrt ((M.a + M.d) ^ 2 + (M.b - M.c) ^ 2) *
              ((M.c - M.b) / Real.sqrt ((M.a + M.d) ^ 2 + (M.b - M.c) ^ 2)) +
            (M.a + M.d) / Real.sqrt ((M.a + M.d) ^ 2 + (M.b - M.c) ^ 2) *
              ((M.a + M.d) / Real.sqrt ((M.a + M.d) ^ 2 + (M.b - M.c) ^ 2)) =
            ((M.a + M.d) / Real.sqrt ((M.a + M.d) ^ 2 + (M.b - M.c) ^ 2)) *
              ((M.a + M.d) / Real.sqrt ((M.a + M.d) ^ 2 + (M.b - M.c) ^ 2)) +
            ((M.b - M.c) / Real.sqrt ((M.a + M.d) ^ 2 + (M.b - M.c) ^ 2)) *
              ((M.b - M.c) / Real.sqrt ((M.a + M.d) ^ 2 + (M.b - M.c) ^ 2)) := by ring
        _ = 1 := hdiag
    · dsimp only [Mat2.det]
      calc (M.a + M.d) / Real.sqrt ((M.a + M.d) ^ 2 + (M.b - M.c) ^ 2) *
            ((M.a + M.d) / Real.sqrt ((M.a + M.d) ^ 2 + (M.b - M.c) ^ 2)) -
          (M.c - M.b) / Real.sqrt ((M.a + M.d) ^ 2 + (M.b - M.c) ^ 2) *
            ((M.b - M.c) / Real.sqrt ((M.a + M.d) ^ 2 + (M.b - M.c) ^ 2)) =
          ((M.a + M.d) / Real.sqrt ((M.a + M.d) ^ 2 + (M.b - M.c) ^ 2)) *
            ((M.a + M.d) / Real.sqrt ((M.a + M.d) ^ 2 + (M.b - M.c) ^ 2)) +
          ((M.b - M.c) / Real.sqrt ((M.a + M.d) ^ 2 + (M.b - M.c) ^ 2)) *
            ((M.b - M.c) / Real.sqrt ((M.a + M.d) ^ 2 + (M.b - M.c) ^ 2)) := by ring
      _ = 1 := hdiag

/-- C4 (confirmed).  Every model returned by a successful fit carries a
rotation matrix `R` with `Rᵀ·R = I` and `det R = +1`: the reflection case
is always corrected before returning.  In this real-number model the
identities are exact. -/
theorem orthonormal_rotation_postcondition (pairs : List (Pt × Pt))
    (m : ℝ × Mat2 × Pt) (hfit : fit pairs = .ok m) :
    Mat2.mul (Mat2.transpose m.2.1) m.2.1 = Mat2.id ∧ Mat2.det m.2.1 = 1 := by
  rw [fit] at hfit
  by_cases h : pairs.length < 3
  · rw [if_pos h] at hfit
    exact Except.noConfusion hfit
  · rw [if_neg h] at hfit
    rw [show m = compute_similarity_transform (pairs.map Prod.fst) (pairs.map Prod.snd)
      from (Except.ok.inj hfit).symm]
    rw [cst_R]
    exact kabschRotation_orthonormal _

/-- Witness for C4 on a concrete successful fit (three pairs with a
common source point, whose returned rotation is the identity). -/
theorem orthonormal_rotation_postcondition_witness :
    Mat2.mul (Mat2.transpose Mat2.id) Mat2.id = Mat2.id ∧ Mat2.det Mat2.id = 1 := by
  have hfit := coincident_target_fit
    ([(((0:ℝ), (0:ℝ)), ((9:ℝ), (9:ℝ))), (((1:ℝ), (1:ℝ)), ((9:ℝ), (9:ℝ))),
      (((3:ℝ), (0:ℝ)), ((9:ℝ), (9:ℝ)))] : List (Pt × Pt)) ((9:ℝ), (9:ℝ))
    (by simp)
    (by
      intro pr hpr
      simp only [List.mem_cons, List.not_mem_nil, or_false] at hpr
      rcases hpr with h | h | h <;> rw [h])
  exact orthonormal_rotation_postcondition _ _ hfit

/-- C5 counterexample.  The claim says every successful fit returns a
strictly positive scale; but a successful fit may return scale 0: with
sources `(0,0), (1,0), (0,1)` all mapped to the single target `(5,5)`,
the code returns `.ok` with scale exactly 0 (a genuine float 0.0 in the
program, no NaN involved). -/
theorem positive_scale_counterexample :
    fit ([(((0:ℝ), (0:ℝ)), ((5:ℝ), (5:ℝ))), (((1:ℝ), (0:ℝ)), ((5:ℝ), (5:ℝ))),
        (((0:ℝ), (1:ℝ)), ((5:ℝ), (5:ℝ)))] : List (Pt × Pt)) =
      .ok (0, Mat2.id, ((5:ℝ), (5:ℝ))) ∧ ¬ ((0:ℝ) < 0) := by
  constructor
  · apply coincident_target_fit
    · simp
    · intro pr hpr
      simp only [List.mem_cons, List.not_mem_nil, or_false] at hpr
      rcases hpr with h | h | h <;> rw [h]
  · norm_num

/-- C5 (corrected).  For every successful fit with at least two distinct
source points the returned scale is non-negative (it is 0 exactly when
the optimal trace gain vanishes, e.g. for coincident targets); strict
positivity does not hold.  The distinct-source hypothesis excludes the
coincident-source case, where the program's scale is NaN and outside
this real-number model. -/
theorem scale_nonneg_postcondition (pairs : List (Pt × Pt)) (m : ℝ × Mat2 × Pt)
    (p q : Pt) (hfit : fit pairs = .ok m) (hp : p ∈ pairs.map Prod.fst)
    (hq : q ∈ pairs.map Prod.fst) (hne : p ≠ q) : 0 ≤ m.1 := by
  rw [fit] at hfit
  by_cases h : pairs.length < 3
  · rw [if_pos h] at hfit
    exact Except.noConfusion hfit
  · rw [if_neg h] at hfit
    rw [show m = compute_similarity_transform (pairs.map Prod.fst) (pairs.map Prod.snd)
      from (Except.ok.inj hfit).symm]
    rw [cst_scale, cst_R, scale_num_eq_trace]
    apply div_nonneg
    · set M := crossCov (center (pairs.map Prod.fst) (mean (pairs.map Prod.fst)))
        (center (pairs.map Prod.snd) (mean (pairs.map Prod.snd))) with hM
      by_cases hzero : M.a + M.d = 0 ∧ M.b - M.c = 0
      · rw [kabschRotation, if_pos hzero]
        have : Mat2.id.a * M.a + Mat2.id.b * M.c + Mat2.id.c * M.b + Mat2.id.d * M.d =
            M.a + M.d := by
          dsimp only [Mat2.id]
          ring
        rw [this, hzero.1]
      · rw [kabschRotation, if_neg hzero]
        have hrw : (⟨(M.a + M.d) / Real.sqrt ((M.a + M.d) ^ 2 + (M.b - M.c) ^ 2),
              (M.c - M.b) / Real.sqrt ((M.a + M.d) ^ 2 + (M.b - M.c) ^ 2),
              (M.b - M.c) / Real.sqrt ((M.a + M.d) ^ 2 + (M.b - M.c) ^ 2),
              (M.a + M.d) / Real.sqrt ((M.a + M.d) ^ 2 + (M.b - M.c) ^ 2)⟩ : Mat2).a * M.a +
            (⟨(M.a + M.d) / Real.sqrt ((M.a + M.d) ^ 2 + (M.b - M.c) ^ 2),
              (M.c - M.b) / Real.sqrt ((M.a + M.d) ^ 2 + (M.b - M.c) ^ 2),
              (M.b - M.c) / Real.sqrt ((M.a + M.d) ^ 2 + (M.b - M.c) ^ 2),
              (M.a + M.d) / Real.sqrt ((M.a + M.d) ^ 2 + (M.b - M.c) ^ 2)⟩ : Mat2).b * M.c +
            (⟨(M.a + M.d) / Real.sqrt ((M.a + M.d) ^ 2 + (M.b - M.c) ^ 2),
              (M.c - M.b) / Real.sqrt ((M.a + M.d) ^ 2 + (M.b - M.c) ^ 2),
              (M.b - M.c) / Real.sqrt ((M.a + M.d) ^ 2 + (M.b - M.c) ^ 2),
              (M.a + M.d) / Real.sqrt ((M.a + M.d) ^ 2 + (M.b - M.c) ^ 2)⟩ : Mat2).c * M.b +
            (⟨(M.a + M.d) / Real.sqrt ((M.a + M.d) ^ 2 + (M.b - M.c) ^ 2),
              (M.c - M.b) / Real.sqrt ((M.a + M.d) ^ 2 + (M.b - M.c) ^ 2),
              (M.b - M.c) / Real.sqrt ((M.a + M.d) ^ 2 + (M.b - M.c) ^ 2),
              (M.a + M.d) / Real.sqrt ((M.a + M.d) ^ 2 + (M.b - M.c) ^ 2)⟩ : Mat2).d * M.d =
            ((M.a + M.d) ^ 2 + (M.b - M.c) ^ 2) /
              Real.sqrt ((M.a + M.d) ^ 2 + (M.b - M.c) ^ 2) := by
          dsimp only
          ring
        rw [hrw]
        exact div_nonneg (by positivity) (Real.sqrt_nonneg _)
    · apply sumBy_nonneg
      intro u _
      nlinarith [mul_self_nonneg u.1, mul_self_nonneg u.2]

/-- Witness for C5's corrected statement at a concrete successful fit
with distinct source points and coincident targets: the scale is 0. -/
theorem scale_nonneg_postcondition_witness : (0:ℝ) ≤ 0 := by
  have hfit := coincident_target_fit
    ([(((0:ℝ), (0:ℝ)), ((7:ℝ), (1:ℝ))), (((2:ℝ), (0:ℝ)), ((7:ℝ), (1:ℝ))),
      (((0:ℝ), (2:ℝ)), ((7:ℝ), (1:ℝ)))] : List (Pt × Pt)) ((7:ℝ), (1:ℝ))
    (by simp)
    (by
      intro pr hpr
      simp only [List.mem_cons, List.not_mem_nil, or_false] at hpr
      rcases hpr with h | h | h <;> rw [h])
  exact scale_nonneg_postcondition _ _ ((0:ℝ), (0:ℝ)) ((2:ℝ), (0:ℝ)) hfit
    (by simp) (by simp) (by norm_num [Prod.ext_iff])

/-- C6 (confirmed).  The concrete scenario: fitting sources
`[(0,0), (1,0), (0,1)]` against targets `[(5,5), (6,5), (5,6)]` yields
scale 1, the identity rotation and translation `(5,5)`, and mapping the
point `(2,2)` through that model yields `(7,7)`. -/
theorem concrete_translation_scenario :
    fit ([(((0:ℝ), (0:ℝ)), ((5:ℝ), (5:ℝ))), (((1:ℝ), (0:ℝ)), ((6:ℝ), (5:ℝ))),
        (((0:ℝ), (1:ℝ)), ((5:ℝ), (6:ℝ)))] : List (Pt × Pt)) =
      .ok (1, Mat2.id, ((5:ℝ), (5:ℝ))) ∧
    transform_point 2 2 (1, Mat2.id, ((5:ℝ), (5:ℝ))) = ((7:ℝ), (7:ℝ)) := by
  have hm : mean ([((0:ℝ), (0:ℝ)), ((1:ℝ), (0:ℝ)), ((0:ℝ), (1:ℝ))] : List Pt) =
      ((1:ℝ)/3, (1:ℝ)/3) := by
    norm_num [mean, sumBy]
  have hmd : mean ([((5:ℝ), (5:ℝ)), ((6:ℝ), (5:ℝ)), ((5:ℝ), (6:ℝ))] : List Pt) =
      ((16:ℝ)/3, (16:ℝ)/3) := by
    norm_num [mean, sumBy]
  have hcs : center ([((0:ℝ), (0:ℝ)), ((1:ℝ), (0:ℝ)), ((0:ℝ), (1:ℝ))] : List Pt)
      (((1:ℝ)/3, (1:ℝ)/3)) =
      ([((-1:ℝ)/3, (-1:ℝ)/3), ((2:ℝ)/3, (-1:ℝ)/3), ((-1:ℝ)/3, (2:ℝ)/3)] : List Pt) := by
    norm_num [center]
  have hct : center ([((5:ℝ), (5:ℝ)), ((6:ℝ), (5:ℝ)), ((5:ℝ), (6:ℝ))] : List Pt)
      (((16:ℝ)/3, (16:ℝ)/3)) =
      ([((-1:ℝ)/3, (-1:ℝ)/3), ((2:ℝ)/3, (-1:ℝ)/3), ((-1:ℝ)/3, (2:ℝ)/3)] : List Pt) := by
    norm_num [center]
  have hM : crossCov
      ([((-1:ℝ)/3, (-1:ℝ)/3), ((2:ℝ)/3, (-1:ℝ)/3), ((-1:ℝ)/3, (2:ℝ)/3)] : List Pt)
      ([((-1:ℝ)/3, (-1:ℝ)/3), ((2:ℝ)/3, (-1:ℝ)/3), ((-1:ℝ)/3, (2:ℝ)/3)] : List Pt) =
      ⟨(2:ℝ)/3, (-1:ℝ)/3, (-1:ℝ)/3, (2:ℝ)/3⟩ := by
    norm_num [crossCov, sumBy2, Mat2.mk.injEq]
  have hR : kabschRotation ⟨(2:ℝ)/3, (-1:ℝ)/3, (-1:ℝ)/3, (2:ℝ)/3⟩ = Mat2.id := by
    rw [kabschRotation_rot (k := (4:ℝ)/3) (c := (1:ℝ)) (d := (0:ℝ)) (by norm_num)
      (by norm_num) (by norm_num) (by norm_num)]
    ext <;> norm_num [Mat2.id]
  have h1 : (compute_similarity_transform
      ([((0:ℝ), (0:ℝ)), ((1:ℝ), (0:ℝ)), ((0:ℝ), (1:ℝ))] : List Pt)
      ([((5:ℝ), (5:ℝ)), ((6:ℝ), (5:ℝ)), ((5:ℝ), (6:ℝ))] : List Pt)).2.1 = Mat2.id := by
    rw [cst_R, hm, hmd, hcs, hct, hM, hR]
  have h2 : (compute_similarity_transform
      ([((0:ℝ), (0:ℝ)), ((1:ℝ), (0:ℝ)), ((0:ℝ), (1:ℝ))] : List Pt)
      ([((5:ℝ), (5:ℝ)), ((6:ℝ), (5:ℝ)), ((5:ℝ), (6:ℝ))] : List Pt)).1 = 1 := by
    rw [cst_scale, h1, hm, hmd, hcs, hct]
    norm_num [sumBy2, sumBy, Mat2.id]
  have h3 : (compute_similarity_transform
      ([((0:ℝ), (0:ℝ)), ((1:ℝ), (0:ℝ)), ((0:ℝ), (1:ℝ))] : List Pt)
      ([((5:ℝ), (5:ℝ)), ((6:ℝ), (5:ℝ)), ((5:ℝ), (6:ℝ))] : List Pt)).2.2 =
      ((5:ℝ), (5:ℝ)) := by
    rw [cst_t, h2, h1, hm, hmd]
    norm_num [Mat2.id]
  constructor
  · rw [fit, if_neg (by simp)]
    exact congrArg Except.ok (Prod.ext_iff.mpr ⟨h2, Prod.ext_iff.mpr ⟨h1, h3⟩⟩)
  · norm_num [transform_point, Mat2.id]

/-- C7 (confirmed).  `transform_geom` preserves all container structure —
constructor, ring order, hole membership, vertex counts, multi-geometry
child order — and moves only leaf coordinates; in particular a polygon
with `h` holes maps to a polygon whose hole list has the same per-hole
vertex counts in the same order and whose exterior keeps its vertex
count. -/
theorem polygon_structure_preserved (model : ℝ × Mat2 × Pt) :
    (∀ g, shape (transform_geom g model) = shape g) ∧
    (∀ outer rings, ∃ outerT ringsT,
      transform_geom (Geom.polygon outer rings) model = Geom.polygon outerT ringsT ∧
        outerT.length = outer.length ∧
        ringsT.map List.length = rings.map List.length) := by
  constructor
  · intro g
    exact shape_transform g model
  · intro outer rings
    refine ⟨outer.map (fun q => transform_point q.1 q.2 model),
      rings.map (fun ring => ring.map fun q => transform_point q.1 q.2 model),
      by rw [transform_geom], List.length_map _ _, ?_⟩
    rw [List.map_map]
    simp [Function.comp]

/-- C8 (confirmed).  A geometry node whose `geom_type` is outside the
handled set `{Point, Polygon, MultiPolygon, LineString, MultiLineString}`
falls through every `if` of `transform_geom` to the final `return g`: it
is returned unchanged, coordinates included, and no branch raises (the
function is total by construction). -/
theorem unsupported_kind_passthrough (k : String) (cs : List Pt)
    (model : ℝ × Mat2 × Pt) (hk : Geom.kindOf (Geom.other k cs) ∉ handledKinds) :
    transform_geom (Geom.other k cs) model = Geom.other k cs := by
  rw [transform_geom]

/-- Witness for C8 on a `GeometryCollection` node. -/
theorem unsupported_kind_passthrough_witness :
    transform_geom (Geom.other "GeometryCollection" [((1:ℝ), (2:ℝ))])
      (2, Mat2.id, ((3:ℝ), (4:ℝ))) =
      Geom.other "GeometryCollection" [((1:ℝ), (2:ℝ))] :=
  unsupported_kind_passthrough _ _ _ (by decide)

/-- C9 (confirmed).  The dataset projection inside `/transform` keeps the
record count and order, replaces record `i`'s geometry by
`transform_geom` of the input's record-`i` geometry, leaves every
record's attribute mapping untouched, and attaches the supplied target
frame as the collection's CRS tag. -/
theorem projector_contract (coll : FeatureCollection) (model : ℝ × Mat2 × Pt)
    (tf : ℕ) :
    (project coll model tf).records.length = coll.records.length ∧
    (∀ i, ((project coll model tf).records.get? i).map FeatureRecord.geometry =
      (coll.records.get? i).map fun r => transform_geom r.geometry model) ∧
    (∀ i, ((project coll model tf).records.get? i).map FeatureRecord.attributes =
      (coll.records.get? i).map FeatureRecord.attributes) ∧
    (project coll model tf).crs = some tf := by
  refine ⟨List.length_map _ _, fun i => ?_, fun i => ?_, rfl⟩
  · rw [show (project coll model tf).records = coll.records.map
      (fun r => ⟨r.attributes, transform_geom r.geometry model⟩) from rfl,
      List.get?_map, Option.map_map]
    rfl
  · rw [show (project coll model tf).records = coll.records.map
      (fun r => ⟨r.attributes, transform_geom r.geometry model⟩) from rfl,
      List.get?_map, Option.map_map]
    rfl

/-- C10 (confirmed).  Inside `/transform`, the trailing
`except Exception` catches every exception raised in the body — including
the handler's own `HTTPException(404, "Session not found")` and
`HTTPException(400, "At least 3 control point pairs required")`, since
fastapi's `HTTPException` subclasses `Exception` — and re-raises it as a
fresh `HTTPException` with status 500 and `str(e)` as detail, so the
caller observes 500 instead of the intended 404/400; indeed every error
leaving the handler has status 500. -/
theorem transform_endpoint_masks_status (sessions : List (String × SessionData))
    (sid : String) (pairs : List (Pt × Pt)) :
    (sessions.lookup sid = none →
      apply_transformation sessions sid pairs =
        .error (.httpException 500 "404: Session not found")) ∧
    (∀ sess, sessions.lookup sid = some sess → pairs.length < 3 →
      apply_transformation sessions sid pairs =
        .error (.httpException 500 "400: At least 3 control point pairs required")) ∧
    (∀ e, apply_transformation sessions sid pairs = .error e →
      ∃ msg, e = .httpException 500 msg) := by
  refine ⟨?_, ?_, ?_⟩
  · intro h
    simp only [apply_transformation, transform_body, h, pyStr]
    rfl
  · intro sess h hlt
    simp only [apply_transformation, transform_body, h, if_pos hlt, pyStr]
    rfl
  · intro e h
    rw [apply_transformation] at h
    cases htb : transform_body sessions sid pairs with
    | ok r =>
        rw [htb] at h
        exact Except.noConfusion h
    | error e2 =>
        rw [htb] at h
        exact ⟨pyStr e2, (Except.error.inj h).symm⟩

/-- Witness for C10: a missing session surfaces as 500 (not 404), and a
present session with too few pairs surfaces as 500 (not 400). -/
theorem transform_endpoint_masks_status_witness :
    apply_transformation [] "abc" [] =
      .error (.httpException 500 "404: Session not found") ∧
    apply_transformation [("abc", ⟨⟨[], none⟩⟩)] "abc" [] =
      .error (.httpException 500 "400: At least 3 control point pairs required") := by
  constructor
  · exact (transform_endpoint_masks_status [] "abc" []).1 rfl
  · exact (transform_endpoint_masks_status [("abc", ⟨⟨[], none⟩⟩)] "abc" []).2.1
      ⟨⟨[], none⟩⟩ rfl (by simp)

end


